import Mathlib

/-!
Verification of the rgrep line-oriented search tool (src/src/main.rs).

The development shallowly embeds the program: byte contents are lists of
natural numbers (byte values), the opaque regex capability is a pair of
parameters (an is-match predicate and a find-all-matches function on line
bytes), and every write to the report stream is recorded as one output
record.  Stateful loops become structural recursions carrying the same
counters as the source.
-/

set_option autoImplicit false

namespace Rgrep

/-- The configuration record built by Config::from_args (main.rs lines 9-29).
Field names follow the Rust struct. -/
structure Config where
  pattern : String
  files : List String
  ignoreCase : Bool
  invertMatch : Bool
  count : Bool
  lineNumber : Bool
  filesWithMatches : Bool
  filesWithoutMatch : Bool
  noFilename : Bool
  withFilename : Bool
  onlyMatching : Bool
  quiet : Bool
  recursive : Bool
  maxCount : Option Nat
  fixedStrings : Bool
  wordRegexp : Bool
  lineRegexp : Bool
  color : Bool
  byteOffset : Bool
deriving DecidableEq, Repr

deriving instance DecidableEq for Except

/-! ### Line segmentation -/

/-- Whole-buffer splitting on the line-feed byte, as content.split in
search_bytes (main.rs line 244).  Mirrors Rust slice::split semantics: the
result always has at least one element, the delimiter is dropped, and a
trailing delimiter yields a final empty element.  The accumulator holds the
bytes of the current element in reverse. -/
def splitOnNewlineAux : List Nat → List Nat → List (List Nat)
  | [], acc => [acc.reverse]
  | b :: rest, acc =>
    if b = 10 then acc.reverse :: splitOnNewlineAux rest []
    else splitOnNewlineAux rest (b :: acc)

def splitOnNewline (content : List Nat) : List (List Nat) :=
  splitOnNewlineAux content []

/-- Streamed splitting on the line-feed byte, as BufRead::split over standard
input (main.rs line 193).  read_until collects bytes up to and including the
delimiter; a chunk is yielded only when at least one byte was read, with a
trailing delimiter stripped.  Hence end of input with an empty current chunk
yields nothing. -/
def splitStdinAux : List Nat → List Nat → List (List Nat)
  | [], acc => if acc.isEmpty then [] else [acc.reverse]
  | b :: rest, acc =>
    if b = 10 then acc.reverse :: splitStdinAux rest []
    else splitStdinAux rest (b :: acc)

def splitStdin (content : List Nat) : List (List Nat) :=
  splitStdinAux content []

/-- Pairing every element with its index starting from n.  Used both for the
1-based line numbering (enumerate + i + 1, main.rs lines 245-246 and 194) and
for the 0-based enumerate of the scanning loops (lines 249 and 199). -/
def withIdxFrom {α : Type} (n : Nat) : List α → List (Nat × α)
  | [] => []
  | a :: as => (n, a) :: withIdxFrom (n + 1) as

/-- The (1-based line number, line bytes) sequence for a whole buffer
(main.rs lines 243-247). -/
def segmentBytes (content : List Nat) : List (Nat × List Nat) :=
  withIdxFrom 1 (splitOnNewline content)

/-- The (1-based line number, line bytes) sequence collected from standard
input (main.rs lines 191-197). -/
def segmentStdin (content : List Nat) : List (Nat × List Nat) :=
  withIdxFrom 1 (splitStdin content)

/-- True when the byte content ends with a line-feed byte. -/
def endsWithLF : List Nat → Bool
  | [] => false
  | [b] => decide (b = 10)
  | _ :: b :: rest => endsWithLF (b :: rest)

/-! ### Output records

Every write to the report stream (stdout) performed while processing one
source is recorded as one output record.  Color is an orthogonal rendering
detail (escape codes around the same payload bytes) and is therefore not a
separate record; a record is emitted exactly when the corresponding write
site in the source runs, color or not. -/

/-- One write to the report stream. -/
inductive OutRec where
  /-- A filename field followed by a colon, before line content
  (main.rs lines 364-374). -/
  | fnameField (name : String)
  /-- A line number field followed by a colon (lines 376-382). -/
  | lineNumField (n : Nat)
  /-- A byte offset field followed by a colon (lines 384-390). -/
  | offsetField (n : Nat)
  /-- One only-matching span followed by a newline (lines 392-402). -/
  | spanOut (bytes : List Nat)
  /-- A whole line followed by a newline (lines 403-410). -/
  | lineOut (bytes : List Nat)
  /-- A filename on a line of its own, for files-with-matches and
  files-without-match output (lines 269, 289, 219). -/
  | nameLine (name : String)
  /-- A count line: optional filename field, then the total (lines 279-286
  and 229-231). -/
  | countOut (fname : Option String) (n : Nat)
deriving DecidableEq, Repr

/-- Tests whether a record is an only-matching span record. -/
def isSpanOut : OutRec → Bool
  | .spanOut _ => true
  | _ => false

/-! ### The per-line output formatter -/

/-- The slice line[s..e] of a match span (main.rs lines 396, 399). -/
def spanSlice (line : List Nat) (sp : Nat × Nat) : List Nat :=
  (line.drop sp.1).take (sp.2 - sp.1)

/-- The byte offset recomputed by the loops at main.rs lines 384-390 and
324-330: the sum of length + 1 over all lines strictly before index idx. -/
def byteOffsetAt (allLines : List (Nat × List Nat)) (idx : Nat) : Nat :=
  ((allLines.take idx).map (fun p => p.2.length + 1)).sum

/-- The field records written before line content: filename, line number,
byte offset, in that order (main.rs lines 364-390; print_match at lines
304-330 is the same logic with a Vec instead of a slice). -/
def matchFields (cfg : Config) (filename : Option String)
    (allLines : List (Nat × List Nat)) (idx num : Nat) : List OutRec :=
  (match filename with
   | some fname =>
     if cfg.withFilename || (!cfg.noFilename && decide (cfg.files.length > 1))
     then [OutRec.fnameField fname] else []
   | none => [])
  ++ (if cfg.lineNumber then [OutRec.lineNumField num] else [])
  ++ (if cfg.byteOffset then [OutRec.offsetField (byteOffsetAt allLines idx)] else [])

/-- The records written for one reported line: the fields, then either one
record per non-overlapping match span (only-matching with invert off) or the
whole line once.  Embeds print_match_bytes (main.rs lines 355-413) and the
identical print_match (lines 295-353); fa is the find-all-matches capability
of the compiled regex (find_iter). -/
def printMatch (fa : List Nat → List (Nat × Nat)) (cfg : Config)
    (filename : Option String) (allLines : List (Nat × List Nat))
    (idx num : Nat) (line : List Nat) : List OutRec :=
  matchFields cfg filename allLines idx num
  ++ (if cfg.onlyMatching && !cfg.invertMatch then
        (fa line).map (fun sp => OutRec.spanOut (spanSlice line sp))
      else [OutRec.lineOut line])

/-! ### The per-source search loops -/

/-- Result of processing one source: the found flag returned to main, the
final total_matches counter, the list of lines that were selected as
reported (a ghost record of the iterations in which the source increments
match_count, kept in scan order), and the records written to the report
stream. -/
structure SearchRes where
  found : Bool
  total : Nat
  reported : List (Nat × List Nat)
  out : List OutRec
deriving DecidableEq, Repr

/-- The max-count cutoff test run before evaluating each line
(main.rs lines 250-254 and 200-204). -/
def atMaxCount (maxCount : Option Nat) (matchCount : Nat) : Bool :=
  match maxCount with
  | some mx => decide (mx ≤ matchCount)
  | none => false

/-- The writes performed after the scan of a file-backed source
(main.rs lines 279-291): the count line (suppressed under quiet) and the
files-without-match line (not suppressed under quiet). -/
def epilogueBytes (cfg : Config) (filename : String) (total : Nat)
    (found : Bool) : List OutRec :=
  (if cfg.count && !cfg.quiet
   then [OutRec.countOut
          (if cfg.withFilename || (!cfg.noFilename && decide (cfg.files.length > 1))
           then some filename else none) total]
   else [])
  ++ (if cfg.filesWithoutMatch && !found then [OutRec.nameLine filename] else [])

/-- The writes performed after the scan of standard input (main.rs lines
229-231): only the count line, with no filename field and no quiet guard;
standard input has no files-without-match handling. -/
def epilogueStdin (cfg : Config) (total : Nat) : List OutRec :=
  if cfg.count then [OutRec.countOut none total] else []

/-- The scanning loop of search_bytes (main.rs lines 249-292) over the
enumerated lines.  im is the is-match capability of the compiled regex.
The two early returns (quiet, files-with-matches) skip the epilogue. -/
def searchBytesGo (im : List Nat → Bool) (fa : List Nat → List (Nat × Nat))
    (cfg : Config) (filename : String) (allLines : List (Nat × List Nat)) :
    List (Nat × Nat × List Nat) → Nat → Nat → Bool → SearchRes
  | [], _, total, found =>
    ⟨found, total, [], epilogueBytes cfg filename total found⟩
  | item :: rest, matchCount, total, found =>
    if atMaxCount cfg.maxCount matchCount then
      ⟨found, total, [], epilogueBytes cfg filename total found⟩
    else
      if Bool.xor (im item.2.2) cfg.invertMatch then
        if cfg.quiet then ⟨true, total + 1, [item.2], []⟩
        else if cfg.filesWithMatches then
          ⟨true, total + 1, [item.2], [OutRec.nameLine filename]⟩
        else
          let res := searchBytesGo im fa cfg filename allLines rest
            (matchCount + 1) (total + 1) true
          ⟨res.found, res.total, item.2 :: res.reported,
            (if !cfg.count
             then printMatch fa cfg (some filename) allLines item.1 item.2.1 item.2.2
             else []) ++ res.out⟩
      else searchBytesGo im fa cfg filename allLines rest matchCount total found

/-- search_bytes (main.rs lines 236-293): segment the whole buffer, then scan. -/
def searchBytes (im : List Nat → Bool) (fa : List Nat → List (Nat × Nat))
    (cfg : Config) (content : List Nat) (filename : String) : SearchRes :=
  searchBytesGo im fa cfg filename (segmentBytes content)
    (withIdxFrom 0 (segmentBytes content)) 0 0 false

/-- The scanning loop of search_stdin (main.rs lines 199-227): identical
decision structure, but print_match is called with no filename, the
files-with-matches line writes the literal token, and the quiet return
happens before any write. -/
def searchStdinGo (im : List Nat → Bool) (fa : List Nat → List (Nat × Nat))
    (cfg : Config) (allLines : List (Nat × List Nat)) :
    List (Nat × Nat × List Nat) → Nat → Nat → Bool → SearchRes
  | [], _, total, found =>
    ⟨found, total, [], epilogueStdin cfg total⟩
  | item :: rest, matchCount, total, found =>
    if atMaxCount cfg.maxCount matchCount then
      ⟨found, total, [], epilogueStdin cfg total⟩
    else
      if Bool.xor (im item.2.2) cfg.invertMatch then
        if cfg.quiet then ⟨true, total + 1, [item.2], []⟩
        else if cfg.filesWithMatches then
          ⟨true, total + 1, [item.2], [OutRec.nameLine "(standard input)"]⟩
        else
          let res := searchStdinGo im fa cfg allLines rest
            (matchCount + 1) (total + 1) true
          ⟨res.found, res.total, item.2 :: res.reported,
            (if !cfg.count
             then printMatch fa cfg none allLines item.1 item.2.1 item.2.2
             else []) ++ res.out⟩
      else searchStdinGo im fa cfg allLines rest matchCount total found

/-- search_stdin (main.rs lines 181-234): collect the streamed lines, then scan. -/
def searchStdin (im : List Nat → Bool) (fa : List Nat → List (Nat × Nat))
    (cfg : Config) (content : List Nat) : SearchRes :=
  searchStdinGo im fa cfg (segmentStdin content)
    (withIdxFrom 0 (segmentStdin content)) 0 0 false

/-! ### Argument parsing (Config::from_args, main.rs lines 32-137) -/

/-- True when the string begins with a dash, as str::starts_with at
main.rs line 94. -/
def startsWithDash (s : String) : Bool :=
  match s.data with
  | [] => false
  | c :: _ => decide (c = '-')

/-- The initial flag values (main.rs lines 39-58); color defaults to whether
stdout is an interactive terminal, passed in as isTty. -/
def initConfig (isTty : Bool) : Config :=
  { pattern := "", files := [], ignoreCase := false, invertMatch := false,
    count := false, lineNumber := false, filesWithMatches := false,
    filesWithoutMatch := false, noFilename := false, withFilename := false,
    onlyMatching := false, quiet := false, recursive := false,
    maxCount := none, fixedStrings := false, wordRegexp := false,
    lineRegexp := false, color := isTty, byteOffset := false }

/-- The argument scan of from_args (main.rs lines 61-106), one clause per
match arm, in source order.  usize parsing is modelled by String.toNat?. -/
def parseArgsLoop (cfg : Config) : List String → Except String Config
  | [] => Except.ok cfg
  | arg :: rest =>
    if arg = "-i" ∨ arg = "--ignore-case" then
      parseArgsLoop { cfg with ignoreCase := true } rest
    else if arg = "-v" ∨ arg = "--invert-match" then
      parseArgsLoop { cfg with invertMatch := true } rest
    else if arg = "-c" ∨ arg = "--count" then
      parseArgsLoop { cfg with count := true } rest
    else if arg = "-n" ∨ arg = "--line-number" then
      parseArgsLoop { cfg with lineNumber := true } rest
    else if arg = "-l" ∨ arg = "--files-with-matches" then
      parseArgsLoop { cfg with filesWithMatches := true } rest
    else if arg = "-L" ∨ arg = "--files-without-match" then
      parseArgsLoop { cfg with filesWithoutMatch := true } rest
    else if arg = "-h" ∨ arg = "--no-filename" then
      parseArgsLoop { cfg with noFilename := true } rest
    else if arg = "-H" ∨ arg = "--with-filename" then
      parseArgsLoop { cfg with withFilename := true } rest
    else if arg = "-o" ∨ arg = "--only-matching" then
      parseArgsLoop { cfg with onlyMatching := true } rest
    else if arg = "-q" ∨ arg = "--quiet" ∨ arg = "--silent" then
      parseArgsLoop { cfg with quiet := true } rest
    else if arg = "-r" ∨ arg = "-R" ∨ arg = "--recursive" then
      parseArgsLoop { cfg with recursive := true } rest
    else if arg = "-F" ∨ arg = "--fixed-strings" then
      parseArgsLoop { cfg with fixedStrings := true } rest
    else if arg = "-w" ∨ arg = "--word-regexp" then
      parseArgsLoop { cfg with wordRegexp := true } rest
    else if arg = "-x" ∨ arg = "--line-regexp" then
      parseArgsLoop { cfg with lineRegexp := true } rest
    else if arg = "-b" ∨ arg = "--byte-offset" then
      parseArgsLoop { cfg with byteOffset := true } rest
    else if arg = "--color" ∨ arg = "--colour" then
      parseArgsLoop { cfg with color := true } rest
    else if arg = "--no-color" ∨ arg = "--no-colour" then
      parseArgsLoop { cfg with color := false } rest
    else if arg = "-m" ∨ arg = "--max-count" then
      match rest with
      | [] => Except.error "Option --max-count requires an argument"
      | v :: rest2 =>
        match v.toNat? with
        | none => Except.error "Invalid max-count"
        | some n => parseArgsLoop { cfg with maxCount := some n } rest2
    else if arg = "-e" ∨ arg = "--regexp" then
      match rest with
      | [] => Except.error "Option --regexp requires an argument"
      | v :: rest2 => parseArgsLoop { cfg with pattern := v } rest2
    else if startsWithDash arg then
      Except.error ("Unknown option: " ++ arg)
    else if cfg.pattern = "" then
      parseArgsLoop { cfg with pattern := arg } rest
    else
      parseArgsLoop { cfg with files := cfg.files ++ [arg] } rest

/-- Config::from_args (main.rs lines 32-137): args is the full argv list
including the program name; the scan starts at index 1. -/
def fromArgs (isTty : Bool) (args : List String) : Except String Config :=
  if args.length < 2 then
    Except.error "Usage: rgrep [OPTIONS] PATTERN [FILE...]"
  else
    match parseArgsLoop (initConfig isTty) args.tail with
    | Except.error e => Except.error e
    | Except.ok cfg =>
      if cfg.pattern = "" then Except.error "No pattern specified"
      else Except.ok { cfg with files := if cfg.files.isEmpty then ["-"] else cfg.files }

/-! ### Pattern composition and the process exit code (main.rs lines 145-168
and 452-506) -/

/-- The pattern transformation of Matcher::new (main.rs lines 147-159):
escape when fixed-strings (regex::escape is the external esc parameter),
then word-boundary wrapping, then line anchoring, in that order. -/
def composePattern (esc : String → String) (cfg : Config) : String :=
  let p1 := if cfg.fixedStrings then esc cfg.pattern else cfg.pattern
  let p2 := if cfg.wordRegexp then "\\b" ++ p1 ++ "\\b" else p1
  let p3 := if cfg.lineRegexp then "^" ++ p2 ++ "$" else p2
  p3

/-- Matcher::new (main.rs lines 146-168) reduced to its fallibility: the
external regex builder accepts or rejects the composed pattern; valid is the
opaque validity test of the regex crate. -/
def matcherNew (esc : String → String) (valid : String → Bool)
    (cfg : Config) : Except String Unit :=
  if valid (composePattern esc cfg) then Except.ok ()
  else Except.error "Invalid regex"

/-- The found-flag fold of main (main.rs lines 488-503): each source result
is OR-combined; a per-source error is only printed and leaves found as is. -/
def overallFound (results : List (Except String Bool)) : Bool :=
  results.foldl
    (fun found r => match r with
      | Except.ok f => found || f
      | Except.error _ => found) false

/-- The process exit code (main.rs lines 452-506): 2 when from_args fails,
2 when the matcher fails to build, otherwise 0 or 1 by the found fold.
results gives the per-source outcomes for the configuration actually built. -/
def mainExit (isTty : Bool) (args : List String) (esc : String → String)
    (valid : String → Bool) (results : Config → List (Except String Bool)) : Nat :=
  match fromArgs isTty args with
  | Except.error _ => 2
  | Except.ok cfg =>
    match matcherNew esc valid cfg with
    | Except.error _ => 2
    | Except.ok _ => if overallFound (results cfg) then 0 else 1

/-- Joining lines with the line-feed delimiter; the inverse of the
whole-buffer splitter, used to state what a byte offset points at. -/
def joinLF : List (List Nat) → List Nat
  | [] => []
  | [l] => l
  | l :: l2 :: ls => l ++ 10 :: joinLF (l2 :: ls)

/-- The sum of line length + 1 over the first idx lines, on bare lines. -/
def lineOffset (ls : List (List Nat)) (idx : Nat) : Nat :=
  ((ls.take idx).map (fun l => l.length + 1)).sum

/-! ### Predicates and concrete instances used by the theorems below -/

/-- Records that can appear on the report stream while processing standard
input: never a filename field; a whole-line filename only as the literal
token and only in files-with-matches mode; a count line never carries a
filename field. -/
def stdinEventOk (cfg : Config) : OutRec → Bool
  | .fnameField _ => false
  | .nameLine s => decide (s = "(standard input)") && cfg.filesWithMatches
  | .countOut p _ => p.isNone
  | _ => true

/-- An is-match capability: the line contains byte 97, as a regex for the
literal a would decide. -/
def imHasA : List Nat → Bool := fun l => l.contains 97

/-- An is-match capability: the line contains byte 122 (literal z). -/
def imHasZ : List Nat → Bool := fun l => l.contains 122

/-- An is-match capability that matches every line. -/
def imAll : List Nat → Bool := fun _ => true

/-- A find-all-matches capability returning no spans. -/
def faEmpty : List Nat → List (Nat × Nat) := fun _ => []

/-- A find-all-matches capability: on the line aa, the two one-byte spans a
regex for the literal a would find. -/
def faPairAA : List Nat → List (Nat × Nat) :=
  fun l => if l = [97, 97] then [(0, 1), (1, 2)] else []

def cfgPlain : Config := { initConfig false with pattern := "a", files := ["f"] }

def cfgMax1 : Config :=
  { initConfig false with pattern := "a", files := ["f"], maxCount := some 1 }

def cfgMax0Count : Config :=
  { initConfig false with
    pattern := "a"
    files := ["f"]
    maxCount := some 0
    count := true }

def cfgQuietL : Config :=
  { initConfig false with
    pattern := "z"
    files := ["f"]
    quiet := true
    filesWithoutMatch := true }

def cfgQuietC : Config :=
  { initConfig false with
    pattern := "z"
    files := ["-"]
    quiet := true
    count := true }

def cfgWithF : Config :=
  { initConfig false with pattern := "a", files := ["-"], withFilename := true }

def cfgOnly : Config :=
  { initConfig false with
    pattern := "a"
    files := ["f"]
    onlyMatching := true
    lineNumber := true }

/-- The configuration from_args builds for the argv list rgrep, k. -/
def cfgK : Config := { initConfig false with pattern := "k", files := ["-"] }

/-- The configuration from_args builds for the argv list rgrep, p, f. -/
def cfgPF : Config := { initConfig false with pattern := "p", files := ["f"] }

/-! ### Basic lemmas about the segmentation helpers -/

lemma withIdxFrom_map_snd {α : Type} (n : Nat) (l : List α) :
    (withIdxFrom n l).map (fun p => p.2) = l := by
  induction l generalizing n with
  | nil => rfl
  | cons a t ih => simp [withIdxFrom, ih]

lemma length_withIdxFrom {α : Type} (n : Nat) (l : List α) :
    (withIdxFrom n l).length = l.length := by
  induction l generalizing n with
  | nil => rfl
  | cons a t ih => simp [withIdxFrom, ih]

lemma dropLast_cons_ne {α : Type} (a : α) (l : List α) (h : l ≠ []) :
    (a :: l).dropLast = a :: l.dropLast := by
  cases l with
  | nil => exact absurd rfl h
  | cons b t => rfl

lemma withIdxFrom_dropLast {α : Type} (n : Nat) (l : List α) :
    withIdxFrom n l.dropLast = (withIdxFrom n l).dropLast := by
  induction l generalizing n with
  | nil => rfl
  | cons a t ih =>
    cases t with
    | nil => rfl
    | cons b t2 =>
      rw [dropLast_cons_ne a (b :: t2) (by simp)]
      rw [show withIdxFrom n (a :: b :: t2)
            = (n, a) :: withIdxFrom (n + 1) (b :: t2) from rfl]
      rw [dropLast_cons_ne (n, a) (withIdxFrom (n + 1) (b :: t2)) (by simp [withIdxFrom])]
      rw [show withIdxFrom n (a :: (b :: t2).dropLast)
            = (n, a) :: withIdxFrom (n + 1) ((b :: t2).dropLast) from rfl]
      rw [ih]

lemma splitOnNewlineAux_ne_nil (c acc : List Nat) : splitOnNewlineAux c acc ≠ [] := by
  induction c generalizing acc with
  | nil => simp [splitOnNewlineAux]
  | cons b rest ih =>
    by_cases hb : b = 10 <;> simp [splitOnNewlineAux, hb, ih]

/-- Core relation between the two segmenters: the streamed splitter agrees
with the whole-buffer splitter except that a final empty element (arising
from empty input or input ending in a line feed) is absent. -/
lemma splitStdinAux_eq (c : List Nat) : ∀ acc : List Nat,
    splitStdinAux c acc =
      if endsWithLF c || (c.isEmpty && acc.isEmpty)
      then (splitOnNewlineAux c acc).dropLast
      else splitOnNewlineAux c acc := by
  induction c with
  | nil =>
    intro acc
    cases acc with
    | nil => simp [splitStdinAux, splitOnNewlineAux, endsWithLF]
    | cons x xs => simp [splitStdinAux, splitOnNewlineAux, endsWithLF]
  | cons b rest ih =>
    intro acc
    cases rest with
    | nil =>
      by_cases hb : b = 10
      · subst hb
        simp [splitStdinAux, splitOnNewlineAux, endsWithLF]
      · simp [splitStdinAux, splitOnNewlineAux, endsWithLF, hb]
    | cons b2 rest2 =>
      by_cases hb : b = 10
      · subst hb
        have hL : splitStdinAux (10 :: b2 :: rest2) acc
            = acc.reverse :: splitStdinAux (b2 :: rest2) [] := by
          simp [splitStdinAux]
        have hR : splitOnNewlineAux (10 :: b2 :: rest2) acc
            = acc.reverse :: splitOnNewlineAux (b2 :: rest2) [] := by
          simp [splitOnNewlineAux]
        rw [hL, hR, ih []]
        have hend : endsWithLF (10 :: b2 :: rest2) = endsWithLF (b2 :: rest2) := rfl
        by_cases hc : endsWithLF (b2 :: rest2)
        · simp only [hend, hc, List.isEmpty_cons, Bool.false_and, Bool.or_false,
            Bool.and_true, Bool.true_or, if_true, Bool.or_true]
          rw [dropLast_cons_ne _ _ (splitOnNewlineAux_ne_nil _ _)]
        · simp [hend, hc]
      · have hL : splitStdinAux (b :: b2 :: rest2) acc
            = splitStdinAux (b2 :: rest2) (b :: acc) := by
          simp [splitStdinAux, hb]
        have hR : splitOnNewlineAux (b :: b2 :: rest2) acc
            = splitOnNewlineAux (b2 :: rest2) (b :: acc) := by
          simp [splitOnNewlineAux, hb]
        have hend : endsWithLF (b :: b2 :: rest2) = endsWithLF (b2 :: rest2) := rfl
        rw [hL, hR, ih (b :: acc), hend]
        simp

lemma splitStdin_eq (c : List Nat) :
    splitStdin c =
      if endsWithLF c || c.isEmpty
      then (splitOnNewline c).dropLast
      else splitOnNewline c := by
  have h := splitStdinAux_eq c []
  simpa [splitStdin, splitOnNewline] using h

lemma segmentStdin_eq (c : List Nat) :
    segmentStdin c =
      if endsWithLF c || c.isEmpty
      then (segmentBytes c).dropLast
      else segmentBytes c := by
  unfold segmentStdin segmentBytes
  rw [splitStdin_eq]
  by_cases h : (endsWithLF c || c.isEmpty : Bool)
  · simp [h, withIdxFrom_dropLast]
  · simp [h]

/-! ### Reconstruction of a buffer from its lines, for byte offsets -/

lemma joinLF_cons_ne (l : List Nat) (ls : List (List Nat)) (h : ls ≠ []) :
    joinLF (l :: ls) = l ++ 10 :: joinLF ls := by
  cases ls with
  | nil => exact absurd rfl h
  | cons l2 ls2 => rfl

lemma joinLF_splitOnNewlineAux (c : List Nat) : ∀ acc : List Nat,
    joinLF (splitOnNewlineAux c acc) = acc.reverse ++ c := by
  induction c with
  | nil => intro acc; simp [splitOnNewlineAux, joinLF]
  | cons b rest ih =>
    intro acc
    by_cases hb : b = 10
    · subst hb
      rw [show splitOnNewlineAux (10 :: rest) acc
            = acc.reverse :: splitOnNewlineAux rest [] from by simp [splitOnNewlineAux]]
      rw [joinLF_cons_ne _ _ (splitOnNewlineAux_ne_nil _ _), ih []]
      simp
    · rw [show splitOnNewlineAux (b :: rest) acc
            = splitOnNewlineAux rest (b :: acc) from by simp [splitOnNewlineAux, hb]]
      rw [ih (b :: acc)]
      simp

lemma joinLF_splitOnNewline (c : List Nat) : joinLF (splitOnNewline c) = c := by
  simpa [splitOnNewline] using joinLF_splitOnNewlineAux c []

lemma drop_len_append {α : Type} (l r : List α) (n : Nat) :
    (l ++ r).drop (l.length + n) = r.drop n := by
  induction l with
  | nil => simp
  | cons a t ih =>
    have h : (a :: t).length + n = (t.length + n) + 1 := by
      simp [Nat.succ_add]
    rw [h]
    simp only [List.cons_append, List.drop_succ_cons]
    exact ih

lemma take_len_append {α : Type} (l r : List α) : (l ++ r).take l.length = l := by
  induction l with
  | nil => simp
  | cons a t ih =>
    simp only [List.cons_append, List.length_cons, List.take_succ_cons]
    rw [ih]

lemma drop_lineOffset : ∀ (idx : Nat) (ls : List (List Nat)), idx < ls.length →
    (joinLF ls).drop (lineOffset ls idx) = joinLF (ls.drop idx) := by
  intro idx
  induction idx with
  | zero => intro ls h; simp [lineOffset]
  | succ k ih =>
    intro ls h
    cases ls with
    | nil => simp at h
    | cons l ls2 =>
      have hlt : k < ls2.length := by
        simpa using Nat.lt_of_succ_lt_succ h
      have hne : ls2 ≠ [] := by
        intro e; rw [e] at hlt; simp at hlt
      rw [joinLF_cons_ne l ls2 hne]
      have hoff : lineOffset (l :: ls2) (k + 1) = l.length + (1 + lineOffset ls2 k) := by
        simp [lineOffset, List.take_succ_cons]
        omega
      rw [hoff, drop_len_append]
      have : (10 :: joinLF ls2).drop (1 + lineOffset ls2 k)
          = (joinLF ls2).drop (lineOffset ls2 k) := by
        rw [Nat.add_comm]
        simp
      rw [this, ih ls2 hlt]
      simp

lemma get?_withIdxFrom {α : Type} (l : List α) : ∀ (n i : Nat),
    (withIdxFrom n l).get? i = (l.get? i).map (fun a => (n + i, a)) := by
  induction l with
  | nil => intro n i; simp [withIdxFrom]
  | cons a t ih =>
    intro n i
    cases i with
    | zero => simp [withIdxFrom]
    | succ k =>
      rw [show withIdxFrom n (a :: t) = (n, a) :: withIdxFrom (n + 1) t from rfl]
      rw [show n + (k + 1) = (n + 1) + k from by omega]
      simpa using ih (n + 1) k

lemma take_withIdxFrom {α : Type} (l : List α) : ∀ (n k : Nat),
    (withIdxFrom n l).take k = withIdxFrom n (l.take k) := by
  induction l with
  | nil => intro n k; simp [withIdxFrom]
  | cons a t ih =>
    intro n k
    cases k with
    | zero => simp [withIdxFrom]
    | succ k2 => simp [withIdxFrom, List.take_succ_cons, ih]

lemma byteOffsetAt_withIdxFrom (n : Nat) (ls : List (List Nat)) (idx : Nat) :
    byteOffsetAt (withIdxFrom n ls) idx = lineOffset ls idx := by
  unfold byteOffsetAt lineOffset
  rw [take_withIdxFrom]
  rw [show (fun (p : Nat × List Nat) => p.2.length + 1)
        = (fun (l : List Nat) => l.length + 1) ∘ (fun (p : Nat × List Nat) => p.2) from rfl]
  rw [← List.map_map, withIdxFrom_map_snd]

/-- At the byte offset that the formatter computes for line idx, the source
content holds exactly that line (followed by the delimiter and the remaining
lines). -/
lemma byteOffsetAt_locates (c : List Nat) (idx num : Nat) (line : List Nat)
    (h : (segmentBytes c).get? idx = some (num, line)) :
    (c.drop (byteOffsetAt (segmentBytes c) idx)).take line.length = line := by
  have hmap := get?_withIdxFrom (splitOnNewline c) 1 idx
  rw [show segmentBytes c = withIdxFrom 1 (splitOnNewline c) from rfl] at h
  rw [h] at hmap
  have h2 : (splitOnNewline c).get? idx = some line := by
    cases hg : (splitOnNewline c).get? idx with
    | none => rw [hg] at hmap; simp at hmap
    | some l =>
      rw [hg] at hmap
      simp at hmap
      rw [hmap.2]
  have hlt : idx < (splitOnNewline c).length := by
    by_contra hc
    rw [List.get?_eq_none.mpr (Nat.le_of_not_lt hc)] at h2
    exact Option.noConfusion h2
  rw [show segmentBytes c = withIdxFrom 1 (splitOnNewline c) from rfl,
    byteOffsetAt_withIdxFrom]
  have key := drop_lineOffset idx (splitOnNewline c) hlt
  rw [joinLF_splitOnNewline] at key
  rw [key]
  have hdrop : (splitOnNewline c).drop idx
      = line :: (splitOnNewline c).drop (idx + 1) := by
    rw [List.drop_eq_getElem_cons hlt]
    have hg : (splitOnNewline c)[idx] = line := by
      have hgg := List.get?_eq_get hlt
      rw [h2] at hgg
      exact (Option.some.inj hgg).symm
    rw [hg]
  rw [hdrop]
  cases hrest : (splitOnNewline c).drop (idx + 1) with
  | nil => rw [joinLF]; exact List.take_length line
  | cons r rs =>
    rw [joinLF_cons_ne _ _ (by simp)]
    exact take_len_append line _

lemma take_dropLast {α : Type} (L : List α) : ∀ k, k < L.length →
    L.dropLast.take k = L.take k := by
  induction L with
  | nil => intro k h; simp at h
  | cons a t ih =>
    intro k h
    cases t with
    | nil =>
      have : k = 0 := by simp at h; omega
      subst this; simp
    | cons b t2 =>
      cases k with
      | zero => simp
      | succ k2 =>
        rw [dropLast_cons_ne a (b :: t2) (by simp)]
        rw [List.take_succ_cons, List.take_succ_cons]
        rw [ih k2 (by simpa using Nat.lt_of_succ_lt_succ h)]

lemma get?_dropLast {α : Type} (L : List α) : ∀ i, i < L.dropLast.length →
    L.dropLast.get? i = L.get? i := by
  induction L with
  | nil => intro i h; simp at h
  | cons a t ih =>
    intro i h
    cases t with
    | nil => simp [List.dropLast] at h
    | cons b t2 =>
      rw [dropLast_cons_ne a (b :: t2) (by simp)] at h ⊢
      cases i with
      | zero => simp
      | succ k =>
        rw [List.get?_cons_succ, List.get?_cons_succ]
        exact ih k (by simpa using Nat.lt_of_succ_lt_succ h)

/-! ### Characterization of the scanning loops -/

/-- With no max-count and neither early-return mode, the lines selected by
the file loop are exactly the lines whose is-match result XOR invert is true. -/
lemma reported_bytes_none (im : List Nat → Bool) (fa : List Nat → List (Nat × Nat))
    (cfg : Config) (filename : String) (allLines : List (Nat × List Nat))
    (hmx : cfg.maxCount = none) (hq : cfg.quiet = false)
    (hl : cfg.filesWithMatches = false) :
    ∀ (rem : List (Nat × Nat × List Nat)) (mc total : Nat) (fd : Bool),
    (searchBytesGo im fa cfg filename allLines rem mc total fd).reported
      = (rem.map (fun t => t.2)).filter (fun p => Bool.xor (im p.2) cfg.invertMatch) := by
  intro rem
  induction rem with
  | nil => intro mc total fd; simp [searchBytesGo]
  | cons item rest ih =>
    intro mc total fd
    have hcut : atMaxCount cfg.maxCount mc = false := by simp [atMaxCount, hmx]
    cases hxr : Bool.xor (im item.2.2) cfg.invertMatch with
    | false => simp [searchBytesGo, hcut, hxr, List.filter_cons, ih]
    | true => simp [searchBytesGo, hcut, hxr, hq, hl, List.filter_cons, ih]

/-- With max-count N and neither early-return mode, the file loop selects
the first N - matchCount remaining lines whose decision is true. -/
lemma reported_bytes_some (im : List Nat → Bool) (fa : List Nat → List (Nat × Nat))
    (cfg : Config) (filename : String) (allLines : List (Nat × List Nat)) (N : Nat)
    (hmx : cfg.maxCount = some N) (hq : cfg.quiet = false)
    (hl : cfg.filesWithMatches = false) :
    ∀ (rem : List (Nat × Nat × List Nat)) (mc total : Nat) (fd : Bool),
    (searchBytesGo im fa cfg filename allLines rem mc total fd).reported
      = ((rem.map (fun t => t.2)).filter
          (fun p => Bool.xor (im p.2) cfg.invertMatch)).take (N - mc) := by
  intro rem
  induction rem with
  | nil => intro mc total fd; simp [searchBytesGo]
  | cons item rest ih =>
    intro mc total fd
    by_cases hle : N ≤ mc
    · have hcut : atMaxCount cfg.maxCount mc = true := by
        simp [atMaxCount, hmx, hle]
      have hz : N - mc = 0 := Nat.sub_eq_zero_of_le hle
      simp [searchBytesGo, hcut, hz]
    · have hcut : atMaxCount cfg.maxCount mc = false := by
        simp [atMaxCount, hmx]; omega
      cases hxr : Bool.xor (im item.2.2) cfg.invertMatch with
      | false => simp [searchBytesGo, hcut, hxr, List.filter_cons, ih]
      | true =>
        obtain ⟨k, hk⟩ : ∃ k, N - mc = k + 1 := ⟨N - mc - 1, by omega⟩
        have hk2 : N - (mc + 1) = k := by omega
        simp [searchBytesGo, hcut, hxr, hq, hl, List.filter_cons, hk, hk2,
          List.take_succ_cons, ih]

/-- Once matchCount has reached the max-count ceiling, the file loop ignores
every remaining line: the result is that of the empty remainder. -/
lemma cutoff_bytes (im : List Nat → Bool) (fa : List Nat → List (Nat × Nat))
    (cfg : Config) (filename : String) (allLines : List (Nat × List Nat)) (N : Nat)
    (hmx : cfg.maxCount = some N) :
    ∀ (rem : List (Nat × Nat × List Nat)) (mc total : Nat) (fd : Bool), N ≤ mc →
    searchBytesGo im fa cfg filename allLines rem mc total fd
      = searchBytesGo im fa cfg filename allLines [] mc total fd := by
  intro rem mc total fd hle
  cases rem with
  | nil => rfl
  | cons item rest =>
    have hcut : atMaxCount cfg.maxCount mc = true := by
      simp [atMaxCount, hmx, hle]
    simp [searchBytesGo, hcut]

/-- With max-count 0 the file scan reports nothing and leaves found unset,
whatever the content. -/
lemma searchBytes_zero (im : List Nat → Bool) (fa : List Nat → List (Nat × Nat))
    (cfg : Config) (content : List Nat) (filename : String)
    (hmx : cfg.maxCount = some 0) :
    searchBytes im fa cfg content filename
      = ⟨false, 0, [], epilogueBytes cfg filename 0 false⟩ := by
  unfold searchBytes
  cases h : withIdxFrom 0 (segmentBytes content) with
  | nil => simp [searchBytesGo]
  | cons item rest =>
    have hcut : atMaxCount cfg.maxCount 0 = true := by simp [atMaxCount, hmx]
    simp [searchBytesGo, hcut]

/-- Stream-loop analogue of reported_bytes_none. -/
lemma reported_stdin_none (im : List Nat → Bool) (fa : List Nat → List (Nat × Nat))
    (cfg : Config) (allLines : List (Nat × List Nat))
    (hmx : cfg.maxCount = none) (hq : cfg.quiet = false)
    (hl : cfg.filesWithMatches = false) :
    ∀ (rem : List (Nat × Nat × List Nat)) (mc total : Nat) (fd : Bool),
    (searchStdinGo im fa cfg allLines rem mc total fd).reported
      = (rem.map (fun t => t.2)).filter (fun p => Bool.xor (im p.2) cfg.invertMatch) := by
  intro rem
  induction rem with
  | nil => intro mc total fd; simp [searchStdinGo]
  | cons item rest ih =>
    intro mc total fd
    have hcut : atMaxCount cfg.maxCount mc = false := by simp [atMaxCount, hmx]
    cases hxr : Bool.xor (im item.2.2) cfg.invertMatch with
    | false => simp [searchStdinGo, hcut, hxr, List.filter_cons, ih]
    | true => simp [searchStdinGo, hcut, hxr, hq, hl, List.filter_cons, ih]

/-- Stream-loop analogue of reported_bytes_some. -/
lemma reported_stdin_some (im : List Nat → Bool) (fa : List Nat → List (Nat × Nat))
    (cfg : Config) (allLines : List (Nat × List Nat)) (N : Nat)
    (hmx : cfg.maxCount = some N) (hq : cfg.quiet = false)
    (hl : cfg.filesWithMatches = false) :
    ∀ (rem : List (Nat × Nat × List Nat)) (mc total : Nat) (fd : Bool),
    (searchStdinGo im fa cfg allLines rem mc total fd).reported
      = ((rem.map (fun t => t.2)).filter
          (fun p => Bool.xor (im p.2) cfg.invertMatch)).take (N - mc) := by
  intro rem
  induction rem with
  | nil => intro mc total fd; simp [searchStdinGo]
  | cons item rest ih =>
    intro mc total fd
    by_cases hle : N ≤ mc
    · have hcut : atMaxCount cfg.maxCount mc = true := by
        simp [atMaxCount, hmx, hle]
      have hz : N - mc = 0 := Nat.sub_eq_zero_of_le hle
      simp [searchStdinGo, hcut, hz]
    · have hcut : atMaxCount cfg.maxCount mc = false := by
        simp [atMaxCount, hmx]; omega
      cases hxr : Bool.xor (im item.2.2) cfg.invertMatch with
      | false => simp [searchStdinGo, hcut, hxr, List.filter_cons, ih]
      | true =>
        obtain ⟨k, hk⟩ : ∃ k, N - mc = k + 1 := ⟨N - mc - 1, by omega⟩
        have hk2 : N - (mc + 1) = k := by omega
        simp [searchStdinGo, hcut, hxr, hq, hl, List.filter_cons, hk, hk2,
          List.take_succ_cons, ih]

/-- Stream-loop analogue of cutoff_bytes. -/
lemma cutoff_stdin (im : List Nat → Bool) (fa : List Nat → List (Nat × Nat))
    (cfg : Config) (allLines : List (Nat × List Nat)) (N : Nat)
    (hmx : cfg.maxCount = some N) :
    ∀ (rem : List (Nat × Nat × List Nat)) (mc total : Nat) (fd : Bool), N ≤ mc →
    searchStdinGo im fa cfg allLines rem mc total fd
      = searchStdinGo im fa cfg allLines [] mc total fd := by
  intro rem mc total fd hle
  cases rem with
  | nil => rfl
  | cons item rest =>
    have hcut : atMaxCount cfg.maxCount mc = true := by
      simp [atMaxCount, hmx, hle]
    simp [searchStdinGo, hcut]

/-- Stream analogue of searchBytes_zero. -/
lemma searchStdin_zero (im : List Nat → Bool) (fa : List Nat → List (Nat × Nat))
    (cfg : Config) (content : List Nat) (hmx : cfg.maxCount = some 0) :
    searchStdin im fa cfg content = ⟨false, 0, [], epilogueStdin cfg 0⟩ := by
  unfold searchStdin
  cases h : withIdxFrom 0 (segmentStdin content) with
  | nil => simp [searchStdinGo]
  | cons item rest =>
    have hcut : atMaxCount cfg.maxCount 0 = true := by simp [atMaxCount, hmx]
    simp [searchStdinGo, hcut]

/-! ### Output-shape lemmas -/

lemma all_map_const_true {α β : Type} (f : α → β) (p : β → Bool)
    (h : ∀ a, p (f a) = true) (l : List α) : (l.map f).all p = true := by
  induction l with
  | nil => rfl
  | cons a t ih => simp [h, ih]

lemma filter_map_const_true {α β : Type} (f : α → β) (p : β → Bool)
    (h : ∀ a, p (f a) = true) (l : List α) : (l.map f).filter p = l.map f := by
  induction l with
  | nil => rfl
  | cons a t ih => simp [List.filter_cons, h, ih]

lemma countP_map_const_true {α β : Type} (f : α → β) (p : β → Bool)
    (h : ∀ a, p (f a) = true) (l : List α) : (l.map f).countP p = l.length := by
  induction l with
  | nil => rfl
  | cons a t ih => simp [List.countP_cons, h, ih]

/-- The field records are never span records. -/
lemma matchFields_filter_span (cfg : Config) (filename : Option String)
    (allLines : List (Nat × List Nat)) (idx num : Nat) :
    (matchFields cfg filename allLines idx num).filter (fun e => isSpanOut e) = []
    ∧ (matchFields cfg filename allLines idx num).countP (fun e => isSpanOut e) = 0 := by
  unfold matchFields
  cases filename with
  | none =>
    constructor <;>
      · simp only [List.filter_append, List.countP_append]
        split <;> split <;> simp [isSpanOut]
  | some fname =>
    constructor <;>
      · simp only [List.filter_append, List.countP_append]
        split <;> split <;> split <;> simp [isSpanOut]

/-- Per-line output for standard input satisfies the stdin record predicate:
in particular it contains no filename field. -/
lemma printMatch_none_ok (fa : List Nat → List (Nat × Nat)) (cfg : Config)
    (allLines : List (Nat × List Nat)) (idx num : Nat) (line : List Nat) :
    (printMatch fa cfg none allLines idx num line).all (stdinEventOk cfg) = true := by
  unfold printMatch matchFields
  simp only [List.all_append, Bool.and_eq_true]
  refine ⟨⟨?_, ?_⟩, ?_⟩
  · split <;> simp [stdinEventOk]
  · split <;> simp [stdinEventOk]
  · split
    · exact all_map_const_true _ _ (fun a => rfl) _
    · simp [stdinEventOk]

/-- Every record the stream loop can emit satisfies the stdin record
predicate. -/
lemma stdin_out_ok (im : List Nat → Bool) (fa : List Nat → List (Nat × Nat))
    (cfg : Config) (allLines : List (Nat × List Nat)) :
    ∀ (rem : List (Nat × Nat × List Nat)) (mc total : Nat) (fd : Bool),
    ((searchStdinGo im fa cfg allLines rem mc total fd).out).all (stdinEventOk cfg)
      = true := by
  intro rem
  induction rem with
  | nil =>
    intro mc total fd
    simp only [searchStdinGo]
    unfold epilogueStdin
    split <;> simp [stdinEventOk]
  | cons item rest ih =>
    intro mc total fd
    by_cases hcut : atMaxCount cfg.maxCount mc
    · simp only [searchStdinGo, hcut, if_true]
      unfold epilogueStdin
      split <;> simp [stdinEventOk]
    · cases hxr : Bool.xor (im item.2.2) cfg.invertMatch with
      | false => simp [searchStdinGo, hcut, hxr, ih]
      | true =>
        cases hq : cfg.quiet with
        | true => simp [searchStdinGo, hcut, hxr, hq]
        | false =>
          cases hl : cfg.filesWithMatches with
          | true => simp [searchStdinGo, hcut, hxr, hq, hl, stdinEventOk]
          | false =>
            simp only [searchStdinGo, hcut, hxr, hq, hl, Bool.false_eq_true,
              if_false, if_true, List.all_append, Bool.and_eq_true]
            refine ⟨?_, ?_⟩
            · split
              · exact printMatch_none_ok fa cfg allLines item.1 item.2.1 item.2.2
              · rfl
            · exact ih (mc + 1) (total + 1) true

/-! ### Lemmas about the found fold of main -/

lemma overallFound_aux (rs : List (Except String Bool)) : ∀ acc : Bool,
    rs.foldl (fun found r => match r with
      | Except.ok f => found || f
      | Except.error _ => found) acc
    = (acc || rs.any (fun r => r.toOption.getD false)) := by
  induction rs with
  | nil => intro acc; simp
  | cons r t ih =>
    intro acc
    cases r with
    | ok f => simp [ih, Bool.or_assoc, Except.toOption]
    | error e => simp [ih, Except.toOption]

lemma overallFound_eq_any (rs : List (Except String Bool)) :
    overallFound rs = rs.any (fun r => r.toOption.getD false) := by
  simpa [overallFound] using overallFound_aux rs false

/-! ### Claim theorems -/

/-- Claim C1: for every line of every source, the line is reported exactly
when the is-match result on the line bytes XOR the invert flag is true, and
invert only flips this per-line decision.  Stated for both the file loop and
the standard-input loop; the hypotheses exclude the modes that stop the scan
early (max-count, quiet, files-with-matches), under which later matching
lines are intentionally never evaluated. -/
theorem c1_reported_iff_xor :
    ∀ (im : List Nat → Bool) (fa : List Nat → List (Nat × Nat)) (cfg : Config)
      (content : List Nat) (filename : String),
    cfg.maxCount = none → cfg.quiet = false → cfg.filesWithMatches = false →
    (searchBytes im fa cfg content filename).reported
      = (segmentBytes content).filter (fun p => Bool.xor (im p.2) cfg.invertMatch)
    ∧ (searchStdin im fa cfg content).reported
      = (segmentStdin content).filter (fun p => Bool.xor (im p.2) cfg.invertMatch) := by
  intro im fa cfg content filename hmx hq hl
  constructor
  · unfold searchBytes
    rw [reported_bytes_none im fa cfg filename _ hmx hq hl, withIdxFrom_map_snd]
  · unfold searchStdin
    rw [reported_stdin_none im fa cfg _ hmx hq hl, withIdxFrom_map_snd]

/-- Witness for C1 at a concrete input: content a, line feed, b with a
matcher for the literal a reports exactly the first line, on both paths. -/
theorem c1_witness :
    (searchBytes imHasA faEmpty cfgPlain [97, 10, 98] "f").reported = [(1, [97])]
    ∧ (searchStdin imHasA faEmpty cfgPlain [97, 10, 98]).reported = [(1, [97])] := by
  have h := c1_reported_iff_xor imHasA faEmpty cfgPlain [97, 10, 98] "f" rfl rfl rfl
  exact ⟨h.1.trans (by decide), h.2.trans (by decide)⟩

/-- Claim C2: with max-count N and at least N reported lines present, the
scan selects exactly the first N reported lines, in original order; once the
running count has reached N, the loop result no longer depends on the
remaining lines (the cutoff is checked before evaluating each line); the
bound counts post-invert reported lines since the selection filter applies
invert.  The hypotheses exclude quiet and files-with-matches, which by
design stop at the first reported line. -/
theorem c2_max_count_exact :
    ∀ (im : List Nat → Bool) (fa : List Nat → List (Nat × Nat)) (cfg : Config)
      (content : List Nat) (filename : String) (N : Nat),
    cfg.maxCount = some N → cfg.quiet = false → cfg.filesWithMatches = false →
    N ≤ ((segmentBytes content).filter
          (fun p => Bool.xor (im p.2) cfg.invertMatch)).length →
    N ≤ ((segmentStdin content).filter
          (fun p => Bool.xor (im p.2) cfg.invertMatch)).length →
    ((searchBytes im fa cfg content filename).reported
        = ((segmentBytes content).filter
            (fun p => Bool.xor (im p.2) cfg.invertMatch)).take N
      ∧ (searchBytes im fa cfg content filename).reported.length = N)
    ∧ ((searchStdin im fa cfg content).reported
        = ((segmentStdin content).filter
            (fun p => Bool.xor (im p.2) cfg.invertMatch)).take N
      ∧ (searchStdin im fa cfg content).reported.length = N)
    ∧ (∀ (rem : List (Nat × Nat × List Nat)) (mc total : Nat) (fd : Bool), N ≤ mc →
        searchBytesGo im fa cfg filename (segmentBytes content) rem mc total fd
          = searchBytesGo im fa cfg filename (segmentBytes content) [] mc total fd)
    ∧ (∀ (rem : List (Nat × Nat × List Nat)) (mc total : Nat) (fd : Bool), N ≤ mc →
        searchStdinGo im fa cfg (segmentStdin content) rem mc total fd
          = searchStdinGo im fa cfg (segmentStdin content) [] mc total fd) := by
  intro im fa cfg content filename N hmx hq hl hb hs
  have hbeq : (searchBytes im fa cfg content filename).reported
      = ((segmentBytes content).filter
          (fun p => Bool.xor (im p.2) cfg.invertMatch)).take N := by
    unfold searchBytes
    rw [reported_bytes_some im fa cfg filename _ N hmx hq hl, withIdxFrom_map_snd]
    simp
  have hseq : (searchStdin im fa cfg content).reported
      = ((segmentStdin content).filter
          (fun p => Bool.xor (im p.2) cfg.invertMatch)).take N := by
    unfold searchStdin
    rw [reported_stdin_some im fa cfg _ N hmx hq hl, withIdxFrom_map_snd]
    simp
  refine ⟨⟨hbeq, ?_⟩, ⟨hseq, ?_⟩, ?_, ?_⟩
  · rw [hbeq, List.length_take]; omega
  · rw [hseq, List.length_take]; omega
  · exact cutoff_bytes im fa cfg filename _ N hmx
  · exact cutoff_stdin im fa cfg _ N hmx

/-- Witness for C2 at a concrete input: two matching lines, max-count 1. -/
theorem c2_witness :
    (searchBytes imHasA faEmpty cfgMax1 [97, 10, 97] "f").reported = [(1, [97])]
    ∧ (searchBytes imHasA faEmpty cfgMax1 [97, 10, 97] "f").reported.length = 1
    ∧ (searchStdin imHasA faEmpty cfgMax1 [97, 10, 97]).reported = [(1, [97])]
    ∧ searchBytesGo imHasA faEmpty cfgMax1 "f" (segmentBytes [97, 10, 97])
        [(1, 2, [97])] 1 1 true
      = searchBytesGo imHasA faEmpty cfgMax1 "f" (segmentBytes [97, 10, 97])
        [] 1 1 true := by
  have h := c2_max_count_exact imHasA faEmpty cfgMax1 [97, 10, 97] "f" 1
    rfl rfl rfl (by decide) (by decide)
  exact ⟨h.1.1.trans (by decide), h.1.2, h.2.1.1.trans (by decide),
    h.2.2.1 [(1, 2, [97])] 1 1 true (by decide)⟩

/-- Claim C3 counterexample: on content ending in a line feed the two
segmenters disagree; the whole-buffer segmenter emits a final empty line
that the streamed segmenter never produces. -/
theorem c3_counterexample :
    segmentStdin [97, 10] ≠ segmentBytes [97, 10]
    ∧ segmentBytes [97, 10] = [(1, [97]), (2, [])]
    ∧ segmentStdin [97, 10] = [(1, [97])] := by decide

/-- Claim C3 amended: the streamed segmentation agrees with the whole-buffer
segmentation except on content that is empty or ends with a line-feed byte,
where the whole-buffer segmentation has exactly one extra final empty
line (it equals the streamed one plus a dropped last element). -/
theorem c3_amended_segmentation : ∀ content : List Nat,
    (endsWithLF content = false → content ≠ [] →
      segmentStdin content = segmentBytes content)
    ∧ (endsWithLF content = true ∨ content = [] →
      segmentStdin content = (segmentBytes content).dropLast) := by
  intro content
  constructor
  · intro h1 h2
    rw [segmentStdin_eq]
    have he : content.isEmpty = false := by
      cases content with
      | nil => exact absurd rfl h2
      | cons a t => rfl
    simp [h1, he]
  · intro h
    rw [segmentStdin_eq]
    rcases h with h | h
    · simp [h]
    · subst h; simp

/-- Witness for C3 amended, on content without and with a trailing line feed. -/
theorem c3_witness :
    segmentStdin [97, 98] = segmentBytes [97, 98]
    ∧ segmentStdin [97, 10] = (segmentBytes [97, 10]).dropLast := by
  exact ⟨(c3_amended_segmentation [97, 98]).1 (by decide) (by decide),
    (c3_amended_segmentation [97, 10]).2 (Or.inl (by decide))⟩

/-- Claim C4 evaluation (code bug): quiet mode still writes to the report
stream.  With quiet and files-without-match set, a file source with no
reported line writes its filename (main.rs lines 288-290 lack a quiet
guard); with quiet and count set, the standard-input source with no reported
line writes the count 0 (main.rs lines 229-231 lack a quiet guard). -/
theorem c4_quiet_still_writes :
    (searchBytes imHasZ faEmpty cfgQuietL [110, 111] "f").out = [OutRec.nameLine "f"]
    ∧ (searchStdin imHasZ faEmpty cfgQuietC [110, 111]).out = [OutRec.countOut none 0] := by
  decide

/-- Claim C5 counterexample: with the with-filename flag forced on and a
reported line, the standard-input path emits the bare line with no filename
field at all, while a file source named by the literal token would emit the
filename field; the token does not stand in wherever a filename would
appear. -/
theorem c5_counterexample :
    (searchStdin imAll faEmpty cfgWithF [97]).out = [OutRec.lineOut [97]]
    ∧ (searchBytes imAll faEmpty cfgWithF [97] "(standard input)").out
      = [OutRec.fnameField "(standard input)", OutRec.lineOut [97]]
    ∧ (searchStdin imAll faEmpty cfgWithF [97]).out
      ≠ [OutRec.fnameField "(standard input)", OutRec.lineOut [97]] := by
  decide

/-- Claim C5 amended: while processing standard input the literal token
appears only on the files-with-matches line; per-line output never carries a
filename field (whatever the with/without-filename flags), the count line
never carries a filename field, and no files-without-match line is emitted
for standard input. -/
theorem c5_amended_stdin_token :
    ∀ (im : List Nat → Bool) (fa : List Nat → List (Nat × Nat)) (cfg : Config)
      (content : List Nat),
    ((searchStdin im fa cfg content).out).all (stdinEventOk cfg) = true := by
  intro im fa cfg content
  unfold searchStdin
  exact stdin_out_ok im fa cfg _ _ 0 0 false

/-- Claim C6 counterexample: with only-matching and a line holding two
spans, only the first record carries the prefix set; the second record is
the bare span, so each record does not carry its own prefix set. -/
theorem c6_counterexample :
    printMatch faPairAA cfgOnly (some "f") [(1, [97, 97])] 0 1 [97, 97]
      = [OutRec.lineNumField 1, OutRec.spanOut [97], OutRec.spanOut [97]]
    ∧ printMatch faPairAA cfgOnly (some "f") [(1, [97, 97])] 0 1 [97, 97]
      ≠ [OutRec.lineNumField 1, OutRec.spanOut [97],
         OutRec.lineNumField 1, OutRec.spanOut [97]] := by
  decide

/-- Claim C6 amended: with only-matching set and invert off, a reported line
with K non-overlapping spans yields exactly K span records, each containing
only the bytes of its span; the configured prefix set is emitted once,
before the first record, rather than on every record. -/
theorem c6_only_matching_spans :
    ∀ (fa : List Nat → List (Nat × Nat)) (cfg : Config) (filename : Option String)
      (allLines : List (Nat × List Nat)) (idx num : Nat) (line : List Nat),
    cfg.onlyMatching = true → cfg.invertMatch = false →
    printMatch fa cfg filename allLines idx num line
      = matchFields cfg filename allLines idx num
        ++ (fa line).map (fun sp => OutRec.spanOut (spanSlice line sp))
    ∧ (printMatch fa cfg filename allLines idx num line).filter
        (fun e => isSpanOut e)
      = (fa line).map (fun sp => OutRec.spanOut (spanSlice line sp))
    ∧ (printMatch fa cfg filename allLines idx num line).countP
        (fun e => isSpanOut e) = (fa line).length := by
  intro fa cfg filename allLines idx num line ho hi
  have hbody : printMatch fa cfg filename allLines idx num line
      = matchFields cfg filename allLines idx num
        ++ (fa line).map (fun sp => OutRec.spanOut (spanSlice line sp)) := by
    unfold printMatch
    rw [ho, hi]
    rfl
  refine ⟨hbody, ?_, ?_⟩
  · rw [hbody, List.filter_append,
      (matchFields_filter_span cfg filename allLines idx num).1,
      filter_map_const_true _ _ (fun a => rfl)]
    rfl
  · rw [hbody, List.countP_append,
      (matchFields_filter_span cfg filename allLines idx num).2,
      countP_map_const_true _ _ (fun a => rfl)]
    omega

/-- Witness for C6 amended at the two-span line. -/
theorem c6_witness :
    (printMatch faPairAA cfgOnly (some "f") [(1, [97, 97])] 0 1 [97, 97]).filter
        (fun e => isSpanOut e)
      = [OutRec.spanOut [97], OutRec.spanOut [97]]
    ∧ (printMatch faPairAA cfgOnly (some "f") [(1, [97, 97])] 0 1 [97, 97]).countP
        (fun e => isSpanOut e) = 2 := by
  have h := c6_only_matching_spans faPairAA cfgOnly (some "f") [(1, [97, 97])]
    0 1 [97, 97] rfl rfl
  exact ⟨h.2.1.trans (by decide), h.2.2.trans (by decide)⟩

/-- Claim C7: the byte-offset value printed for a line (the sum of length
plus one over all earlier lines, as recomputed by the formatter loop) is the
offset of the first byte of that line within the source content: reading
that many bytes in, the content holds exactly the line.  The standard-input
segmentation yields the same offsets. -/
theorem c7_byte_offset_locates : ∀ (c : List Nat) (idx num : Nat) (line : List Nat),
    ((segmentBytes c).get? idx = some (num, line) →
      (c.drop (byteOffsetAt (segmentBytes c) idx)).take line.length = line)
    ∧ ((segmentStdin c).get? idx = some (num, line) →
      byteOffsetAt (segmentStdin c) idx = byteOffsetAt (segmentBytes c) idx
      ∧ (c.drop (byteOffsetAt (segmentStdin c) idx)).take line.length = line) := by
  intro c idx num line
  refine ⟨byteOffsetAt_locates c idx num line, ?_⟩
  intro h
  by_cases hc : (endsWithLF c || c.isEmpty : Bool)
  · have hseg : segmentStdin c = (segmentBytes c).dropLast := by
      rw [segmentStdin_eq]; simp [hc]
    rw [hseg] at h ⊢
    have hlt : idx < ((segmentBytes c).dropLast).length := by
      by_contra hno
      rw [List.get?_eq_none.mpr (Nat.le_of_not_lt hno)] at h
      exact Option.noConfusion h
    have hb : (segmentBytes c).get? idx = some (num, line) := by
      rw [← get?_dropLast _ idx hlt]; exact h
    have hlen : idx < (segmentBytes c).length := by
      have := List.length_dropLast (segmentBytes c)
      omega
    have hofs : byteOffsetAt ((segmentBytes c).dropLast) idx
        = byteOffsetAt (segmentBytes c) idx := by
      unfold byteOffsetAt
      rw [take_dropLast _ idx hlen]
    exact ⟨hofs, by rw [hofs]; exact byteOffsetAt_locates c idx num line hb⟩
  · have hseg : segmentStdin c = segmentBytes c := by
      rw [segmentStdin_eq]; simp [hc]
    rw [hseg] at h ⊢
    exact ⟨rfl, byteOffsetAt_locates c idx num line h⟩

/-- Witness for C7: in content ab, line feed, c the second line sits at
offset 3, on both segmentations. -/
theorem c7_witness :
    (([97, 98, 10, 99] : List Nat).drop
        (byteOffsetAt (segmentBytes [97, 98, 10, 99]) 1)).take 1 = [99]
    ∧ byteOffsetAt (segmentStdin [97, 98, 10, 99]) 1
        = byteOffsetAt (segmentBytes [97, 98, 10, 99]) 1
    ∧ (([97, 98, 10, 99] : List Nat).drop
        (byteOffsetAt (segmentStdin [97, 98, 10, 99]) 1)).take 1 = [99] := by
  have h := c7_byte_offset_locates [97, 98, 10, 99] 1 2 [99]
  exact ⟨h.1 (by decide), (h.2 (by decide)).1, (h.2 (by decide)).2⟩

/-- Claim C8: the exit code is 2 when argument parsing fails (in particular
on an unknown flag) or when the composed pattern is invalid, and otherwise 0
or 1 according to whether the OR-fold over per-source results found a
reported line; a per-source error contributes exactly as a found = false
source. -/
theorem c8_exit_codes :
    ∀ (isTty : Bool) (args : List String) (esc : String → String)
      (valid : String → Bool) (results : Config → List (Except String Bool)),
    (∀ e, fromArgs isTty args = Except.error e →
      mainExit isTty args esc valid results = 2)
    ∧ (∀ cfg, fromArgs isTty args = Except.ok cfg →
      valid (composePattern esc cfg) = false →
      mainExit isTty args esc valid results = 2)
    ∧ (∀ cfg, fromArgs isTty args = Except.ok cfg →
      valid (composePattern esc cfg) = true →
      mainExit isTty args esc valid results
        = if overallFound (results cfg) then 0 else 1)
    ∧ (∀ rs1 rs2 e, overallFound (rs1 ++ Except.error e :: rs2)
        = overallFound (rs1 ++ Except.ok false :: rs2))
    ∧ fromArgs false ["rgrep", "--bogus", "p"]
        = Except.error "Unknown option: --bogus" := by
  intro isTty args esc valid results
  refine ⟨?_, ?_, ?_, ?_, ?_⟩
  · intro e he; unfold mainExit; rw [he]
  · intro cfg hc hv
    unfold mainExit
    rw [hc]
    simp [matcherNew, hv]
  · intro cfg hc hv
    unfold mainExit
    rw [hc]
    simp [matcherNew, hv]
  · intro rs1 rs2 e
    simp [overallFound_eq_any, Except.toOption]
  · decide

/-- Witness for C8: each exit code arises at a concrete instance. -/
theorem c8_witness :
    mainExit false ["rgrep"] id (fun _ => true) (fun _ => [Except.ok true]) = 2
    ∧ mainExit false ["rgrep", "p", "f"] id (fun _ => false)
        (fun _ => [Except.ok true]) = 2
    ∧ mainExit false ["rgrep", "p", "f"] id (fun _ => true)
        (fun _ => [Except.ok true]) = 0
    ∧ mainExit false ["rgrep", "p", "f"] id (fun _ => true)
        (fun _ => [Except.error "boom"]) = 1
    ∧ overallFound [Except.error "boom", Except.ok true]
        = overallFound [Except.ok false, Except.ok true] := by
  have h1 := (c8_exit_codes false ["rgrep"] id (fun _ => true)
    (fun _ => [Except.ok true])).1 "Usage: rgrep [OPTIONS] PATTERN [FILE...]" (by decide)
  have h2 := (c8_exit_codes false ["rgrep", "p", "f"] id (fun _ => false)
    (fun _ => [Except.ok true])).2.1 cfgPF (by decide) rfl
  have h3 := (c8_exit_codes false ["rgrep", "p", "f"] id (fun _ => true)
    (fun _ => [Except.ok true])).2.2.1 cfgPF (by decide) rfl
  have h4 := (c8_exit_codes false ["rgrep", "p", "f"] id (fun _ => true)
    (fun _ => [Except.error "boom"])).2.2.1 cfgPF (by decide) rfl
  have h5 := (c8_exit_codes false ["rgrep", "p", "f"] id (fun _ => true)
    (fun _ => [Except.ok true])).2.2.2.1 [] [Except.ok true] "boom"
  exact ⟨h1, h2, h3.trans (by decide), h4.trans (by decide), h5⟩

/-- Claim C9: with max-count 0 every scan reports nothing, leaves the found
flag unset whatever the content, in count mode writes the count 0, and with
every source contributing found = false the found fold yields false, giving
exit code 1. -/
theorem c9_max_count_zero :
    ∀ (im : List Nat → Bool) (fa : List Nat → List (Nat × Nat)) (cfg : Config)
      (content : List Nat) (filename : String),
    cfg.maxCount = some 0 →
    searchBytes im fa cfg content filename
      = ⟨false, 0, [], epilogueBytes cfg filename 0 false⟩
    ∧ searchStdin im fa cfg content = ⟨false, 0, [], epilogueStdin cfg 0⟩
    ∧ (cfg.count = true → cfg.quiet = false → cfg.filesWithoutMatch = false →
      (searchBytes im fa cfg content filename).out
        = [OutRec.countOut
            (if cfg.withFilename || (!cfg.noFilename && decide (cfg.files.length > 1))
             then some filename else none) 0])
    ∧ (∀ k, overallFound (List.replicate k (Except.ok false)) = false) := by
  intro im fa cfg content filename hmx
  have hb := searchBytes_zero im fa cfg content filename hmx
  have hs := searchStdin_zero im fa cfg content hmx
  refine ⟨hb, hs, ?_, ?_⟩
  · intro hcount hq hL
    rw [hb]
    simp [epilogueBytes, hcount, hq, hL]
  · intro k
    rw [overallFound_eq_any]
    induction k with
    | zero => rfl
    | succ k2 ih => simp [List.replicate_succ, ih, Except.toOption]

/-- Witness for C9 with count mode on and matching content. -/
theorem c9_witness :
    searchBytes imHasA faEmpty cfgMax0Count [97] "f"
      = ⟨false, 0, [], [OutRec.countOut none 0]⟩
    ∧ searchStdin imHasA faEmpty cfgMax0Count [97]
      = ⟨false, 0, [], [OutRec.countOut none 0]⟩
    ∧ (searchBytes imHasA faEmpty cfgMax0Count [97] "f").out = [OutRec.countOut none 0]
    ∧ overallFound (List.replicate 2 (Except.ok false)) = false := by
  have h := c9_max_count_zero imHasA faEmpty cfgMax0Count [97] "f" rfl
  exact ⟨h.1.trans (by decide), h.2.1.trans (by decide),
    h.2.2.1 rfl rfl rfl, h.2.2.2 2⟩

/-- Claim C10: configuration construction never accepts an empty pattern:
any accepted configuration has a nonempty pattern, and when the scan
completes with an empty final pattern (in particular when the empty pattern
was supplied explicitly through the regexp flag) from_args fails with the
message No pattern specified. -/
theorem c10_empty_pattern_rejected :
    (∀ (isTty : Bool) (args : List String) (cfg : Config),
      fromArgs isTty args = Except.ok cfg → cfg.pattern ≠ "")
    ∧ fromArgs false ["rgrep", "-e", ""] = Except.error "No pattern specified"
    ∧ (∀ (isTty : Bool) (args : List String) (cfg0 : Config),
        2 ≤ args.length →
        parseArgsLoop (initConfig isTty) args.tail = Except.ok cfg0 →
        cfg0.pattern = "" →
        fromArgs isTty args = Except.error "No pattern specified") := by
  refine ⟨?_, by decide, ?_⟩
  · intro isTty args cfg h
    unfold fromArgs at h
    by_cases hlen : args.length < 2
    · simp [hlen] at h
    · simp only [hlen, if_false] at h
      cases hp : parseArgsLoop (initConfig isTty) args.tail with
      | error e => rw [hp] at h; exact Except.noConfusion h
      | ok c =>
        rw [hp] at h
        by_cases hpat : c.pattern = ""
        · simp [hpat] at h
        · simp only [hpat, if_false] at h
          have := Except.ok.inj h
          rw [← this]
          simpa using hpat
  · intro isTty args cfg0 hlen hp hpat
    unfold fromArgs
    have h2 : ¬ args.length < 2 := by omega
    simp [h2, hp, hpat]

/-- Witness for C10: a one-letter pattern is accepted with that pattern. -/
theorem c10_witness :
    cfgK.pattern ≠ ""
    ∧ fromArgs false ["rgrep", "-e", ""] = Except.error "No pattern specified" := by
  exact ⟨c10_empty_pattern_rejected.1 false ["rgrep", "k"] cfgK (by decide),
    c10_empty_pattern_rejected.2.1⟩

end Rgrep
